import Mathlib

/-!
A shallow embedding of `src/slicer.ts` (the weights-parameterized variant of
the load-balancing engine, together with the fixed-weight scorer variant).

Modelling conventions:
* JS numbers are modelled as rationals (`ℚ`).
* JS strings used as keyspace keys are modelled as lists of UTF-16 code units
  (`List Nat`); `charCodeAt(0)` becomes `List.headD · 0` (for a non-empty key
  this is the first code unit; JS yields NaN on an empty key and
  `String.fromCharCode(NaN)` is the single code unit 0, which `headD 0`
  reproduces when both keys are empty).
* `Array.prototype.sort` with the comparator `(a, b) => load a - load b`
  (a stable sort under a consistent comparator, whose output is uniquely
  determined) is modelled by the stable `List.insertionSort` with the
  total preorder `load a ≤ load b`.
* Code paths on which the JS engine throws a `TypeError` (indexing `[0]` of an
  empty array and dereferencing the result) are modelled by `Option`, with
  `none` for the throw.
-/

namespace Slicer

/-- `KeyRange` of src/slicer.ts. -/
structure KeyRange where
  start_key : List Nat
  end_key : List Nat
  data_access_frequency : ℚ
  storage_utilization : ℚ
  request_processing_load : ℚ
  memory_usage : ℚ
  deriving DecidableEq, Repr

/-- `ServerReport` of src/slicer.ts. -/
structure ServerReport where
  instance_id : String
  total_storage_utilization : ℚ
  total_request_processing_load : ℚ
  total_data_access_frequency : ℚ
  total_memory_usage : ℚ
  max_cpu_capacity : ℚ
  max_memory_capacity : ℚ
  key_ranges : List KeyRange
  deriving DecidableEq, Repr

/-- `Weights` of src/slicer.ts. -/
structure Weights where
  cpuWeight : ℚ
  memoryWeight : ℚ
  storageWeight : ℚ
  accessFrequencyWeight : ℚ
  migrationPenalty : ℚ
  deriving DecidableEq, Repr

/-- `MigrationPlan` of src/slicer.ts. -/
structure MigrationPlan where
  start_key : List Nat
  end_key : List Nat
  source_instance : String
  destination_instance : String
  deriving DecidableEq, Repr

/-- The module-level default `weights` value of src/slicer.ts (the literal
`0.30000000000000004` is read as the rational it denotes). -/
def weights : Weights :=
  { cpuWeight := 0.5
    memoryWeight := 0.5
    storageWeight := 0.30000000000000004
    accessFrequencyWeight := 0.1
    migrationPenalty := 1 }

/-- `calculateCombinedLoad(server, weights)` (parameterized variant). -/
def calculateCombinedLoad (server : ServerReport) (w : Weights) : ℚ :=
  server.total_request_processing_load * w.cpuWeight +
  server.total_storage_utilization * w.storageWeight +
  server.total_data_access_frequency * w.accessFrequencyWeight +
  server.total_memory_usage * w.memoryWeight

/-- `calculateKeyRangeLoad(keyRange, weights)` (parameterized variant). -/
def calculateKeyRangeLoad (keyRange : KeyRange) (w : Weights) : ℚ :=
  keyRange.request_processing_load * w.cpuWeight +
  keyRange.storage_utilization * w.storageWeight +
  keyRange.data_access_frequency * w.accessFrequencyWeight +
  keyRange.memory_usage * w.memoryWeight

/-- `calculateCombinedLoad(server)` of the fixed-weight variant
(weights 1, 0.5, 0.2, 0.3 hard-coded in the formula). -/
def calculateCombinedLoadFixed (server : ServerReport) : ℚ :=
  server.total_request_processing_load +
  server.total_storage_utilization * 0.5 +
  server.total_data_access_frequency * 0.2 +
  server.total_memory_usage * 0.3

/-- `calculateKeyRangeLoad(keyRange)` of the fixed-weight variant. -/
def calculateKeyRangeLoadFixed (keyRange : KeyRange) : ℚ :=
  keyRange.request_processing_load +
  keyRange.storage_utilization * 0.5 +
  keyRange.data_access_frequency * 0.2 +
  keyRange.memory_usage * 0.3

/-- JS `key.charCodeAt(0)` on a key modelled as its list of code units. -/
def charCodeAt0 (key : List Nat) : Nat :=
  key.headD 0

/-- `calculateMidKey(startKey, endKey)`: the single character whose code unit
is the floor of the average of the two first code units (JS `Math.floor` on a
non-negative number is `Nat` division). -/
def calculateMidKey (startKey endKey : List Nat) : List Nat :=
  [(charCodeAt0 startKey + charCodeAt0 endKey) / 2]

/-- `shouldSplitKeyRange(keyRange, server)` as the proposition the returned
boolean decides. -/
def shouldSplitKeyRange (keyRange : KeyRange) (server : ServerReport) : Prop :=
  server.total_request_processing_load + keyRange.request_processing_load >
    server.max_cpu_capacity ∨
  server.total_memory_usage + keyRange.memory_usage > server.max_memory_capacity

instance (keyRange : KeyRange) (server : ServerReport) :
    Decidable (shouldSplitKeyRange keyRange server) := by
  unfold shouldSplitKeyRange; infer_instance

/-- `canMoveKeyRange(keyRange, server)` as the proposition the returned
boolean decides. -/
def canMoveKeyRange (keyRange : KeyRange) (server : ServerReport) : Prop :=
  server.total_request_processing_load + keyRange.request_processing_load ≤
    server.max_cpu_capacity ∧
  server.total_memory_usage + keyRange.memory_usage ≤ server.max_memory_capacity

instance (keyRange : KeyRange) (server : ServerReport) :
    Decidable (canMoveKeyRange keyRange server) := by
  unfold canMoveKeyRange; infer_instance

/-- The sort comparator of `splitKeyRange`: JS
`(a, b) => calculateCombinedLoad(a, weights) - calculateCombinedLoad(b, weights)`
as the total preorder a stable sort consumes. -/
def serverLe (w : Weights) (a b : ServerReport) : Prop :=
  calculateCombinedLoad a w ≤ calculateCombinedLoad b w

instance (w : Weights) : DecidableRel (serverLe w) := by
  unfold serverLe; infer_instance

instance (w : Weights) : IsTotal ServerReport (serverLe w) :=
  ⟨fun a b => le_total (calculateCombinedLoad a w) (calculateCombinedLoad b w)⟩

instance (w : Weights) : IsTrans ServerReport (serverLe w) :=
  ⟨fun _ _ _ hab hbc => le_trans hab hbc⟩

/-- `availableServers.sort((a, b) => load a - load b)`: ECMAScript's sort is
stable, and a stable sort's output under a consistent comparator is unique,
so the stable `insertionSort` models it exactly. -/
def sortServers (availableServers : List ServerReport) (w : Weights) :
    List ServerReport :=
  List.insertionSort (serverLe w) availableServers

/-- A `KeyRange & {destination_instance}` value as built by `splitKeyRange`. -/
structure DestinedKeyRange where
  range : KeyRange
  destination_instance : String
  deriving DecidableEq, Repr

/-- `splitKeyRange(keyRange, availableServers, weights)`. `none` models the
`TypeError` JS throws on `sortedServers[0].instance_id` for an empty fleet.
The JS `sortedServers[1]?.instance_id || sortedServers[0].instance_id` falls
back to index 0 both when there is no second server and when the second
server's `instance_id` is the empty string (a falsy value under `||`);
that expression is factored out as `secondDestination`. -/
def secondDestination (s0 : ServerReport) (rest : List ServerReport) : String :=
  match rest with
  | [] => s0.instance_id
  | s1 :: _ => if s1.instance_id = "" then s0.instance_id else s1.instance_id

def splitKeyRange (keyRange : KeyRange) (availableServers : List ServerReport)
    (w : Weights) : Option (DestinedKeyRange × DestinedKeyRange) :=
  let midKey := calculateMidKey keyRange.start_key keyRange.end_key
  match sortServers availableServers w with
  | [] => none
  | s0 :: rest =>
    let dest2 := secondDestination s0 rest
    some
      (⟨{ keyRange with
            end_key := midKey
            request_processing_load := keyRange.request_processing_load / 2
            storage_utilization := keyRange.storage_utilization / 2
            data_access_frequency := keyRange.data_access_frequency / 2
            memory_usage := keyRange.memory_usage / 2 }, s0.instance_id⟩,
       ⟨{ keyRange with
            start_key := midKey
            request_processing_load := keyRange.request_processing_load / 2
            storage_utilization := keyRange.storage_utilization / 2
            data_access_frequency := keyRange.data_access_frequency / 2
            memory_usage := keyRange.memory_usage / 2 }, dest2⟩)

/-- `createMigrationPlan(keyRange, source, destination)`. -/
def createMigrationPlan (keyRange : KeyRange) (source destination : String) :
    MigrationPlan :=
  ⟨keyRange.start_key, keyRange.end_key, source, destination⟩

/-- One step of the `mostLoadedServer` accumulator of the for-loop in
`slicerLoadBalancer` (strict `>` against the current best: first wins ties). -/
def stepMost (w : Weights) (acc : Option ServerReport) (server : ServerReport) :
    Option ServerReport :=
  match acc with
  | none => some server
  | some m =>
    if calculateCombinedLoad server w > calculateCombinedLoad m w then some server
    else some m

/-- One step of the `leastLoadedServer` accumulator of the for-loop in
`slicerLoadBalancer` (strict `<` against the current best: first wins ties). -/
def stepLeast (w : Weights) (acc : Option ServerReport) (server : ServerReport) :
    Option ServerReport :=
  match acc with
  | none => some server
  | some l =>
    if calculateCombinedLoad server w < calculateCombinedLoad l w then some server
    else some l

/-- The single pass of `slicerLoadBalancer` that finds the most- and
least-loaded servers (both `none` exactly on an empty fleet). -/
def findMostAndLeast (servers : List ServerReport) (w : Weights) :
    Option ServerReport × Option ServerReport :=
  servers.foldl (fun acc server => (stepMost w acc.1 server, stepLeast w acc.2 server))
    (none, none)

/-- `mostLoadedServer.key_ranges.reduce(..., key_ranges[0])`: JS `reduce` with
an initial value folds over every element, the initial value being
`key_ranges[0]`. `none` models the undefined value JS produces for an empty
range list (the engine then throws when dereferencing it). -/
def selectKeyRangeToMove (ranges : List KeyRange) (w : Weights) : Option KeyRange :=
  match ranges with
  | [] => none
  | r :: rs =>
    some ((r :: rs).foldl
      (fun prev current =>
        if calculateKeyRangeLoad current w > calculateKeyRangeLoad prev w then current
        else prev) r)

/-- The guard of step 2 of `slicerLoadBalancer`:
`loadDifference > 0.1 * calculateCombinedLoad(mostLoadedServer, weights)`. -/
def imbalanced (mostLoadedServer leastLoadedServer : ServerReport) (w : Weights) : Prop :=
  calculateCombinedLoad mostLoadedServer w - calculateCombinedLoad leastLoadedServer w >
    0.1 * calculateCombinedLoad mostLoadedServer w

instance (most least : ServerReport) (w : Weights) :
    Decidable (imbalanced most least w) := by
  unfold imbalanced; infer_instance

/-- `slicerLoadBalancer(servers, weights)` (parameterized variant). `none`
models the code paths on which the JS function throws. -/
def slicerLoadBalancer (servers : List ServerReport) (w : Weights) :
    Option (List MigrationPlan) :=
  match findMostAndLeast servers w with
  | (some mostLoadedServer, some leastLoadedServer) =>
    if imbalanced mostLoadedServer leastLoadedServer w then
      match selectKeyRangeToMove mostLoadedServer.key_ranges w with
      | none => none
      | some keyRangeToMove =>
        if shouldSplitKeyRange keyRangeToMove leastLoadedServer then
          match splitKeyRange keyRangeToMove servers w with
          | none => none
          | some (range1, range2) =>
            some
              [createMigrationPlan range1.range mostLoadedServer.instance_id
                 range1.destination_instance,
               createMigrationPlan range2.range mostLoadedServer.instance_id
                 range2.destination_instance]
        else if canMoveKeyRange keyRangeToMove leastLoadedServer then
          some
            [createMigrationPlan keyRangeToMove mostLoadedServer.instance_id
               leastLoadedServer.instance_id]
        else some []
    else some []
  | _ => some []

/-- The caller's `servers` array after `slicerLoadBalancer` returns:
`splitKeyRange` sorts the caller's array in place, so on the split path the
list ends up reordered by the sort; on every other path it is untouched. -/
def slicerFinalServers (servers : List ServerReport) (w : Weights) :
    List ServerReport :=
  match findMostAndLeast servers w with
  | (some mostLoadedServer, some leastLoadedServer) =>
    if imbalanced mostLoadedServer leastLoadedServer w then
      match selectKeyRangeToMove mostLoadedServer.key_ranges w with
      | none => servers
      | some keyRangeToMove =>
        if shouldSplitKeyRange keyRangeToMove leastLoadedServer then
          sortServers servers w
        else servers
    else servers
  | _ => servers

/-- JS `<` on strings: lexicographic comparison of UTF-16 code units, a
proper prefix comparing smaller. -/
def strLt : List Nat → List Nat → Bool
  | _, [] => false
  | [], _ :: _ => true
  | a :: as, b :: bs => if a < b then true else if b < a then false else strLt as bs

/-- The code units of a (ASCII) string literal, for writing fixtures. -/
def codes (s : String) : List Nat :=
  s.toList.map Char.toNat

/-- Server `server-1234` of the reference fixture in src/slicer.test.ts. -/
def serverA : ServerReport :=
  ⟨"server-1234", 800, 4450, 15500, 2500, 5000, 3000,
    [⟨codes "a000", codes "a999", 12000, 500, 3500, 1500⟩,
     ⟨codes "b000", codes "b999", 3000, 200, 800, 500⟩,
     ⟨codes "c000", codes "c999", 500, 100, 150, 500⟩]⟩

/-- Server `server-5678` of the reference fixture in src/slicer.test.ts. -/
def serverB : ServerReport :=
  ⟨"server-5678", 400, 2000, 8000, 1000, 4000, 2000,
    [⟨codes "d000", codes "d999", 4000, 150, 1200, 300⟩,
     ⟨codes "e000", codes "e999", 2000, 100, 600, 200⟩,
     ⟨codes "f000", codes "f999", 2000, 150, 200, 500⟩]⟩

/-- The hottest key range of `serverA` in the fixture (`a000`–`a999`). -/
def hotRangeA : KeyRange :=
  ⟨codes "a000", codes "a999", 12000, 500, 3500, 1500⟩

/-- Range A (with destination) that splitting `hotRangeA` yields on the
fixture fleet. -/
def splitA : DestinedKeyRange :=
  ⟨⟨codes "a000", codes "a", 6000, 250, 1750, 750⟩, "server-5678"⟩

/-- Range B (with destination) that splitting `hotRangeA` yields on the
fixture fleet. -/
def splitB : DestinedKeyRange :=
  ⟨⟨codes "a", codes "a999", 6000, 250, 1750, 750⟩, "server-1234"⟩

/-- The first plan the fixture run emits. -/
def planA : MigrationPlan :=
  ⟨codes "a000", codes "a", "server-1234", "server-5678"⟩

/-- The second plan the fixture run emits. -/
def planB : MigrationPlan :=
  ⟨codes "a", codes "a999", "server-1234", "server-1234"⟩

/-- A least-loaded server with a non-empty `instance_id`. -/
def serverY : ServerReport :=
  ⟨"y", 0, 0, 0, 0, 1000, 1000, []⟩

/-- A server whose `instance_id` is the empty string and whose load is
higher than `serverY`'s, so it sorts second. -/
def serverNoName : ServerReport :=
  ⟨"", 0, 100, 0, 0, 1000, 1000, []⟩

/-- A candidate range for exercising `splitKeyRange` on its own. -/
def sampleRange : KeyRange :=
  ⟨codes "b000", codes "b999", 4, 4, 4, 4⟩

/-- A fold with a strict-greater test against the current best returns the
first element attaining the maximum: either the initial value, every listed
score at most its own, or a member strictly above the initial value, strictly
above everything before it and at least everything after it. -/
theorem foldl_first_max {α : Type} (f : α → ℚ) (init : α) (l : List α) :
    (l.foldl (fun b x => if f x > f b then x else b) init = init ∧
       ∀ x ∈ l, f x ≤ f init) ∨
    (∃ l1 m l2, l = l1 ++ m :: l2 ∧
       l.foldl (fun b x => if f x > f b then x else b) init = m ∧
       f init < f m ∧ (∀ x ∈ l1, f x < f m) ∧ (∀ x ∈ l2, f x ≤ f m)) := by
  induction l generalizing init with
  | nil => exact Or.inl ⟨rfl, by simp⟩
  | cons a l ih =>
    rw [List.foldl_cons]
    by_cases h : f a > f init
    · rw [if_pos h]
      rcases ih a with ⟨heq, hall⟩ | ⟨l1, m, l2, hsplit, heq, hlt, h1, h2⟩
      · exact Or.inr ⟨[], a, l, rfl, heq, h, by simp, hall⟩
      · refine Or.inr ⟨a :: l1, m, l2, by simp [hsplit], heq, lt_trans h hlt, ?_, h2⟩
        intro x hx
        rcases List.mem_cons.1 hx with rfl | hx
        · exact hlt
        · exact h1 x hx
    · rw [if_neg h]
      rcases ih init with ⟨heq, hall⟩ | ⟨l1, m, l2, hsplit, heq, hlt, h1, h2⟩
      · refine Or.inl ⟨heq, ?_⟩
        intro x hx
        rcases List.mem_cons.1 hx with rfl | hx
        · exact le_of_not_lt h
        · exact hall x hx
      · refine Or.inr ⟨a :: l1, m, l2, by simp [hsplit], heq, hlt, ?_, h2⟩
        intro x hx
        rcases List.mem_cons.1 hx with rfl | hx
        · exact lt_of_le_of_lt (le_of_not_lt h) hlt
        · exact h1 x hx

/-- Mirror image of `foldl_first_max` for the strict-less fold. -/
theorem foldl_first_min {α : Type} (f : α → ℚ) (init : α) (l : List α) :
    (l.foldl (fun b x => if f x < f b then x else b) init = init ∧
       ∀ x ∈ l, f init ≤ f x) ∨
    (∃ l1 m l2, l = l1 ++ m :: l2 ∧
       l.foldl (fun b x => if f x < f b then x else b) init = m ∧
       f m < f init ∧ (∀ x ∈ l1, f m < f x) ∧ (∀ x ∈ l2, f m ≤ f x)) := by
  induction l generalizing init with
  | nil => exact Or.inl ⟨rfl, by simp⟩
  | cons a l ih =>
    rw [List.foldl_cons]
    by_cases h : f a < f init
    · rw [if_pos h]
      rcases ih a with ⟨heq, hall⟩ | ⟨l1, m, l2, hsplit, heq, hlt, h1, h2⟩
      · exact Or.inr ⟨[], a, l, rfl, heq, h, by simp, hall⟩
      · refine Or.inr ⟨a :: l1, m, l2, by simp [hsplit], heq, lt_trans hlt h, ?_, h2⟩
        intro x hx
        rcases List.mem_cons.1 hx with rfl | hx
        · exact hlt
        · exact h1 x hx
    · rw [if_neg h]
      rcases ih init with ⟨heq, hall⟩ | ⟨l1, m, l2, hsplit, heq, hlt, h1, h2⟩
      · refine Or.inl ⟨heq, ?_⟩
        intro x hx
        rcases List.mem_cons.1 hx with rfl | hx
        · exact le_of_not_lt h
        · exact hall x hx
      · refine Or.inr ⟨a :: l1, m, l2, by simp [hsplit], heq, hlt, ?_, h2⟩
        intro x hx
        rcases List.mem_cons.1 hx with rfl | hx
        · exact lt_of_lt_of_le hlt (le_of_not_lt h)
        · exact h1 x hx

/-- Unrolling the pair-accumulator fold of `findMostAndLeast` once both
accumulators hold a value. -/
theorem findMostAndLeast_go (w : Weights) (l : List ServerReport)
    (m least : ServerReport) :
    l.foldl (fun acc server => (stepMost w acc.1 server, stepLeast w acc.2 server))
        (some m, some least) =
      (some (l.foldl
        (fun b x => if calculateCombinedLoad x w > calculateCombinedLoad b w then x else b) m),
       some (l.foldl
        (fun b x => if calculateCombinedLoad x w < calculateCombinedLoad b w then x else b)
        least)) := by
  induction l generalizing m least with
  | nil => rfl
  | cons a l ih =>
    simp only [List.foldl_cons, stepMost, stepLeast]
    by_cases h1 : calculateCombinedLoad a w > calculateCombinedLoad m w <;>
      by_cases h2 : calculateCombinedLoad a w < calculateCombinedLoad least w <;>
      simp only [if_pos, if_neg, h1, h2, ite_true, ite_false] <;>
      exact ih _ _

/-- `findMostAndLeast` on a non-empty list is the pair of single-accumulator
folds seeded with the first server. -/
theorem findMostAndLeast_cons (w : Weights) (s : ServerReport)
    (rest : List ServerReport) :
    findMostAndLeast (s :: rest) w =
      (some (rest.foldl
        (fun b x => if calculateCombinedLoad x w > calculateCombinedLoad b w then x else b) s),
       some (rest.foldl
        (fun b x => if calculateCombinedLoad x w < calculateCombinedLoad b w then x else b)
        s)) := by
  unfold findMostAndLeast
  rw [List.foldl_cons]
  exact findMostAndLeast_go w rest s s

/-- What the single pass of `slicerLoadBalancer` selects: the first server
attaining the maximum score and the first server attaining the minimum score. -/
theorem findMostAndLeast_spec (w : Weights) (servers : List ServerReport)
    (most least : ServerReport)
    (h : findMostAndLeast servers w = (some most, some least)) :
    (most ∈ servers ∧
      (∀ s ∈ servers, calculateCombinedLoad s w ≤ calculateCombinedLoad most w) ∧
      ∃ l1 l2, servers = l1 ++ most :: l2 ∧
        ∀ s ∈ l1, calculateCombinedLoad s w < calculateCombinedLoad most w) ∧
    (least ∈ servers ∧
      (∀ s ∈ servers, calculateCombinedLoad least w ≤ calculateCombinedLoad s w) ∧
      ∃ l1 l2, servers = l1 ++ least :: l2 ∧
        ∀ s ∈ l1, calculateCombinedLoad least w < calculateCombinedLoad s w) := by
  cases servers with
  | nil => simp [findMostAndLeast] at h
  | cons s rest =>
    rw [findMostAndLeast_cons] at h
    have hmost := congrArg Prod.fst h
    have hleast := congrArg Prod.snd h
    simp only [Option.some.injEq] at hmost hleast
    constructor
    · rcases foldl_first_max (fun x => calculateCombinedLoad x w) s rest with
        ⟨heq, hall⟩ | ⟨l1, m, l2, hsplit, heq, hlt, h1, h2⟩
      · rw [hmost] at heq
        subst heq
        refine ⟨List.mem_cons_self _ _, ?_, [], rest, rfl, by simp⟩
        intro x hx
        rcases List.mem_cons.1 hx with rfl | hx
        · exact le_refl _
        · exact hall x hx
      · rw [hmost] at heq
        subst heq
        refine ⟨?_, ?_, s :: l1, l2, by simp [hsplit], ?_⟩
        · rw [hsplit]
          exact List.mem_cons.2 (Or.inr (List.mem_append.2 (Or.inr (List.mem_cons_self _ _))))
        · intro x hx
          rw [hsplit] at hx
          rcases List.mem_cons.1 hx with rfl | hx
          · exact le_of_lt hlt
          · rcases List.mem_append.1 hx with hx | hx
            · exact le_of_lt (h1 x hx)
            · rcases List.mem_cons.1 hx with rfl | hx
              · exact le_refl _
              · exact h2 x hx
        · intro x hx
          rcases List.mem_cons.1 hx with rfl | hx
          · exact hlt
          · exact h1 x hx
    · rcases foldl_first_min (fun x => calculateCombinedLoad x w) s rest with
        ⟨heq, hall⟩ | ⟨l1, m, l2, hsplit, heq, hlt, h1, h2⟩
      · rw [hleast] at heq
        subst heq
        refine ⟨List.mem_cons_self _ _, ?_, [], rest, rfl, by simp⟩
        intro x hx
        rcases List.mem_cons.1 hx with rfl | hx
        · exact le_refl _
        · exact hall x hx
      · rw [hleast] at heq
        subst heq
        refine ⟨?_, ?_, s :: l1, l2, by simp [hsplit], ?_⟩
        · rw [hsplit]
          exact List.mem_cons.2 (Or.inr (List.mem_append.2 (Or.inr (List.mem_cons_self _ _))))
        · intro x hx
          rcases List.mem_cons.1 hx with rfl | hx
          · exact le_of_lt hlt
          · rcases List.mem_append.1 (hsplit ▸ hx) with hx | hx
            · exact le_of_lt (h1 x hx)
            · rcases List.mem_cons.1 hx with rfl | hx
              · exact le_refl _
              · exact h2 x hx
        · intro x hx
          rcases List.mem_cons.1 hx with rfl | hx
          · exact hlt
          · exact h1 x hx

/-- The strict-greater fold keeps its initial value over a list of equal
scores. -/
theorem foldl_max_const {α : Type} (f : α → ℚ) (init : α) (l : List α)
    (h : ∀ x ∈ l, f x = f init) :
    l.foldl (fun b x => if f x > f b then x else b) init = init := by
  rcases foldl_first_max f init l with ⟨heq, _⟩ | ⟨l1, m, l2, hsplit, _, hlt, _, _⟩
  · exact heq
  · have hm : f m = f init := h m (by simp [hsplit])
    exact absurd (hm ▸ hlt) (lt_irrefl _)

/-- The strict-less fold keeps its initial value over a list of equal
scores. -/
theorem foldl_min_const {α : Type} (f : α → ℚ) (init : α) (l : List α)
    (h : ∀ x ∈ l, f x = f init) :
    l.foldl (fun b x => if f x < f b then x else b) init = init := by
  rcases foldl_first_min f init l with ⟨heq, _⟩ | ⟨l1, m, l2, hsplit, _, hlt, _, _⟩
  · exact heq
  · have hm : f m = f init := h m (by simp [hsplit])
    exact absurd (hm ▸ hlt) (lt_irrefl _)

/-- When the 10% guard fails, `slicerLoadBalancer` returns no plans. -/
theorem slicer_of_not_imbalanced (servers : List ServerReport) (w : Weights)
    (most least : ServerReport)
    (h : findMostAndLeast servers w = (some most, some least))
    (hni : ¬ imbalanced most least w) :
    slicerLoadBalancer servers w = some [] := by
  unfold slicerLoadBalancer
  rw [h]
  simp [hni]

/-- The internal sort permutes the fleet. -/
theorem sortServers_perm (servers : List ServerReport) (w : Weights) :
    (sortServers servers w).Perm servers :=
  List.perm_insertionSort (serverLe w) servers

/-- The internal sort orders the fleet ascending by combined load. -/
theorem sortServers_sorted (servers : List ServerReport) (w : Weights) :
    List.Sorted (serverLe w) (sortServers servers w) :=
  List.sorted_insertionSort (serverLe w) servers

/-- Sorting a non-empty fleet yields a non-empty list. -/
theorem sortServers_ne_nil (servers : List ServerReport) (w : Weights)
    (h : servers ≠ []) : sortServers servers w ≠ [] := by
  intro hc
  exact h ((sortServers_perm servers w).symm.trans (hc ▸ List.Perm.refl _)).eq_nil

/-- Evaluation of `splitKeyRange` once the sorted fleet is exposed. -/
theorem splitKeyRange_cons (keyRange : KeyRange) (servers : List ServerReport)
    (w : Weights) (s0 : ServerReport) (rest : List ServerReport)
    (hs : sortServers servers w = s0 :: rest) :
    splitKeyRange keyRange servers w = some
      (⟨{ keyRange with
            end_key := calculateMidKey keyRange.start_key keyRange.end_key
            request_processing_load := keyRange.request_processing_load / 2
            storage_utilization := keyRange.storage_utilization / 2
            data_access_frequency := keyRange.data_access_frequency / 2
            memory_usage := keyRange.memory_usage / 2 }, s0.instance_id⟩,
       ⟨{ keyRange with
            start_key := calculateMidKey keyRange.start_key keyRange.end_key
            request_processing_load := keyRange.request_processing_load / 2
            storage_utilization := keyRange.storage_utilization / 2
            data_access_frequency := keyRange.data_access_frequency / 2
            memory_usage := keyRange.memory_usage / 2 },
        secondDestination s0 rest⟩) := by
  unfold splitKeyRange
  rw [hs]

/-- Inversion of `splitKeyRange = some`: the sorted fleet is non-empty and
both halves are the halved ranges routed off its first two entries. -/
theorem splitKeyRange_eq_some (keyRange : KeyRange) (servers : List ServerReport)
    (w : Weights) (r1 r2 : DestinedKeyRange)
    (h : splitKeyRange keyRange servers w = some (r1, r2)) :
    ∃ s0 rest, sortServers servers w = s0 :: rest ∧
      r1 = ⟨{ keyRange with
                end_key := calculateMidKey keyRange.start_key keyRange.end_key
                request_processing_load := keyRange.request_processing_load / 2
                storage_utilization := keyRange.storage_utilization / 2
                data_access_frequency := keyRange.data_access_frequency / 2
                memory_usage := keyRange.memory_usage / 2 }, s0.instance_id⟩ ∧
      r2 = ⟨{ keyRange with
                start_key := calculateMidKey keyRange.start_key keyRange.end_key
                request_processing_load := keyRange.request_processing_load / 2
                storage_utilization := keyRange.storage_utilization / 2
                data_access_frequency := keyRange.data_access_frequency / 2
                memory_usage := keyRange.memory_usage / 2 },
            secondDestination s0 rest⟩ := by
  cases hs : sortServers servers w with
  | nil =>
    unfold splitKeyRange at h
    rw [hs] at h
    exact absurd h (by simp)
  | cons s0 rest =>
    rw [splitKeyRange_cons keyRange servers w s0 rest hs] at h
    simp only [Option.some.injEq, Prod.mk.injEq] at h
    exact ⟨s0, rest, rfl, h.1.symm, h.2.symm⟩

/-- Inversion of a successful `slicerLoadBalancer` run: either no plans, or
the two split plans above the threshold when the candidate does not fit, or
the single whole-range plan when it does. -/
theorem slicer_cases (servers : List ServerReport) (w : Weights)
    (ps : List MigrationPlan) (h : slicerLoadBalancer servers w = some ps) :
    ps = [] ∨
    (∃ most least keyRangeToMove r1 r2,
      findMostAndLeast servers w = (some most, some least) ∧
      imbalanced most least w ∧
      selectKeyRangeToMove most.key_ranges w = some keyRangeToMove ∧
      shouldSplitKeyRange keyRangeToMove least ∧
      splitKeyRange keyRangeToMove servers w = some (r1, r2) ∧
      ps = [createMigrationPlan r1.range most.instance_id r1.destination_instance,
            createMigrationPlan r2.range most.instance_id r2.destination_instance]) ∨
    (∃ most least keyRangeToMove,
      findMostAndLeast servers w = (some most, some least) ∧
      imbalanced most least w ∧
      selectKeyRangeToMove most.key_ranges w = some keyRangeToMove ∧
      ¬ shouldSplitKeyRange keyRangeToMove least ∧
      canMoveKeyRange keyRangeToMove least ∧
      ps = [createMigrationPlan keyRangeToMove most.instance_id least.instance_id]) := by
  unfold slicerLoadBalancer at h
  split at h
  · rename_i most least heq
    split at h
    · rename_i him
      split at h
      · exact absurd h (by simp)
      · rename_i keyRangeToMove hsel
        split at h
        · rename_i hsp
          split at h
          · exact absurd h (by simp)
          · rename_i r1 r2 hspl
            simp only [Option.some.injEq] at h
            exact Or.inr (Or.inl
              ⟨most, least, keyRangeToMove, r1, r2, heq, him, hsel, hsp, hspl, h.symm⟩)
        · rename_i hsp
          split at h
          · rename_i hcm
            simp only [Option.some.injEq] at h
            exact Or.inr (Or.inr
              ⟨most, least, keyRangeToMove, heq, him, hsel, hsp, hcm, h.symm⟩)
          · simp only [Option.some.injEq] at h
            exact Or.inl h.symm
    · simp only [Option.some.injEq] at h
      exact Or.inl h.symm
  · simp only [Option.some.injEq] at h
    exact Or.inl h.symm

/-- The fixture fleet sorted ascending by combined load. -/
theorem fixtureSorted : sortServers [serverA, serverB] weights = [serverB, serverA] := by
  norm_num [sortServers, serverLe, List.insertionSort, List.orderedInsert,
    calculateCombinedLoad, serverA, serverB, weights]

/-- The hottest range of `serverA` under the default weights. -/
theorem fixtureSelect :
    selectKeyRangeToMove serverA.key_ranges weights = some hotRangeA := by
  norm_num [selectKeyRangeToMove, calculateKeyRangeLoad, serverA, hotRangeA,
    weights, codes]

/-- Splitting the hot range on the fixture fleet. -/
theorem fixtureSplit :
    splitKeyRange hotRangeA [serverA, serverB] weights = some (splitA, splitB) := by
  rw [splitKeyRange_cons hotRangeA [serverA, serverB] weights serverB [serverA]
    fixtureSorted]
  norm_num [hotRangeA, splitA, splitB, serverA, serverB, secondDestination,
    calculateMidKey, charCodeAt0, codes]
  all_goals decide

/-- The complete fixture run: the two plans of the reference test. -/
theorem fixtureRun :
    slicerLoadBalancer [serverA, serverB] weights = some [planA, planB] := by
  norm_num [slicerLoadBalancer, findMostAndLeast, stepMost, stepLeast,
    calculateCombinedLoad, selectKeyRangeToMove, calculateKeyRangeLoad,
    shouldSplitKeyRange, canMoveKeyRange, splitKeyRange, sortServers, serverLe,
    List.insertionSort, List.orderedInsert, calculateMidKey, charCodeAt0,
    createMigrationPlan, secondDestination, imbalanced, serverA, serverB,
    weights, codes, planA, planB, hotRangeA]
  all_goals decide

/-- C1: `slicerLoadBalancer` selects the maximum- and minimum-scoring servers
in one pass with strict-greater / strict-less comparisons against the current
best (so the first encountered wins ties: every earlier server scores strictly
less for the maximum, strictly more for the minimum), emits plans only when
`score(most) - score(least) > 0.1 * score(most)`, and whenever every server
has one identical (non-negative, as the data model requires) score, the
result is the empty plan list. -/
theorem claim1_selection_threshold_identical :
    (∀ (w : Weights) (servers : List ServerReport) (most least : ServerReport),
      findMostAndLeast servers w = (some most, some least) →
      ((most ∈ servers ∧
        (∀ s ∈ servers, calculateCombinedLoad s w ≤ calculateCombinedLoad most w) ∧
        ∃ l1 l2, servers = l1 ++ most :: l2 ∧
          ∀ s ∈ l1, calculateCombinedLoad s w < calculateCombinedLoad most w) ∧
       (least ∈ servers ∧
        (∀ s ∈ servers, calculateCombinedLoad least w ≤ calculateCombinedLoad s w) ∧
        ∃ l1 l2, servers = l1 ++ least :: l2 ∧
          ∀ s ∈ l1, calculateCombinedLoad least w < calculateCombinedLoad s w))) ∧
    (∀ (w : Weights) (servers : List ServerReport) (most least : ServerReport)
       (ps : List MigrationPlan),
      findMostAndLeast servers w = (some most, some least) →
      slicerLoadBalancer servers w = some ps → ps ≠ [] →
      calculateCombinedLoad most w - calculateCombinedLoad least w >
        0.1 * calculateCombinedLoad most w) ∧
    (∀ (w : Weights) (servers : List ServerReport) (c : ℚ), 0 ≤ c →
      (∀ s ∈ servers, calculateCombinedLoad s w = c) →
      slicerLoadBalancer servers w = some []) := by
  refine ⟨fun w servers most least h => findMostAndLeast_spec w servers most least h,
    ?_, ?_⟩
  · intro w servers most least ps hfml hrun hne
    by_contra hni
    have hzero := slicer_of_not_imbalanced servers w most least hfml
      (fun him => hni him)
    exact hne (Option.some.inj (hrun.symm.trans hzero))
  · intro w servers c hc hall
    cases servers with
    | nil => rfl
    | cons s rest =>
      have hs : calculateCombinedLoad s w = c := hall s (List.mem_cons_self _ _)
      have hmost := foldl_max_const (fun x => calculateCombinedLoad x w) s rest
        (fun x hx => by
          show calculateCombinedLoad x w = calculateCombinedLoad s w
          rw [hall x (List.mem_cons_of_mem _ hx), hs])
      have hleast := foldl_min_const (fun x => calculateCombinedLoad x w) s rest
        (fun x hx => by
          show calculateCombinedLoad x w = calculateCombinedLoad s w
          rw [hall x (List.mem_cons_of_mem _ hx), hs])
      have hfml := findMostAndLeast_cons w s rest
      rw [hmost, hleast] at hfml
      apply slicer_of_not_imbalanced _ _ _ _ hfml
      unfold imbalanced
      rw [hs, sub_self]
      exact not_lt.2 (mul_nonneg (by norm_num) hc)

/-- C1 witness: a fleet of two identical servers (identical, non-negative
scores) yields no plans. -/
theorem claim1_witness :
    slicerLoadBalancer [serverB, serverB] weights = some [] :=
  claim1_selection_threshold_identical.2.2 weights [serverB, serverB]
    (calculateCombinedLoad serverB weights)
    (by norm_num [calculateCombinedLoad, serverB, weights])
    (fun s hs => by
      rcases List.mem_cons.1 hs with rfl | hs
      · rfl
      · rw [List.mem_singleton.1 hs])

/-- C2: the split test is exactly `projectedCpu > max_cpu_capacity OR
projectedMemory > max_memory_capacity`; over the rationals the move test is
its exact complement (boundary equality favours moving); once the imbalance
guard triggers with a candidate range in hand, the run splits exactly when
the split condition holds (emitting the two split plans) and otherwise moves
the range whole, so no no-op outcome is reachable; and a single-plan
(MOVE-WHOLE) result is only ever emitted with `canMoveKeyRange` — both
projections within the destination's capacities — holding. -/
theorem claim2_split_move_policy :
    (∀ (keyRange : KeyRange) (server : ServerReport),
      shouldSplitKeyRange keyRange server ↔
        (server.total_request_processing_load + keyRange.request_processing_load >
           server.max_cpu_capacity ∨
         server.total_memory_usage + keyRange.memory_usage >
           server.max_memory_capacity)) ∧
    (∀ (keyRange : KeyRange) (server : ServerReport),
      canMoveKeyRange keyRange server ↔ ¬ shouldSplitKeyRange keyRange server) ∧
    (∀ (servers : List ServerReport) (w : Weights) (most least : ServerReport)
       (keyRange : KeyRange),
      findMostAndLeast servers w = (some most, some least) →
      imbalanced most least w →
      selectKeyRangeToMove most.key_ranges w = some keyRange →
      (shouldSplitKeyRange keyRange least →
        ∃ r1 r2, splitKeyRange keyRange servers w = some (r1, r2) ∧
          slicerLoadBalancer servers w = some
            [createMigrationPlan r1.range most.instance_id r1.destination_instance,
             createMigrationPlan r2.range most.instance_id r2.destination_instance]) ∧
      (¬ shouldSplitKeyRange keyRange least →
        canMoveKeyRange keyRange least ∧
        slicerLoadBalancer servers w = some
          [createMigrationPlan keyRange most.instance_id least.instance_id]) ∧
      ∃ ps, slicerLoadBalancer servers w = some ps ∧ ps ≠ []) ∧
    (∀ (servers : List ServerReport) (w : Weights) (ps : List MigrationPlan)
       (p : MigrationPlan),
      slicerLoadBalancer servers w = some ps → ps = [p] →
      ∃ most least keyRange,
        findMostAndLeast servers w = (some most, some least) ∧
        selectKeyRangeToMove most.key_ranges w = some keyRange ∧
        canMoveKeyRange keyRange least ∧
        p = createMigrationPlan keyRange most.instance_id least.instance_id) := by
  refine ⟨fun keyRange server => Iff.rfl, ?_, ?_, ?_⟩
  · intro keyRange server
    unfold canMoveKeyRange shouldSplitKeyRange
    constructor
    · intro hcm
      push_neg
      exact hcm
    · intro hns
      push_neg at hns
      exact hns
  · intro servers w most least keyRange hfml him hsel
    have hne : servers ≠ [] := by
      intro hser
      rw [hser] at hfml
      simp [findMostAndLeast] at hfml
    have hsplit : shouldSplitKeyRange keyRange least →
        ∃ r1 r2, splitKeyRange keyRange servers w = some (r1, r2) ∧
          slicerLoadBalancer servers w = some
            [createMigrationPlan r1.range most.instance_id r1.destination_instance,
             createMigrationPlan r2.range most.instance_id r2.destination_instance] := by
      intro hsp
      obtain ⟨pair, hspl⟩ : ∃ pair, splitKeyRange keyRange servers w = some pair := by
        cases hsort : sortServers servers w with
        | nil => exact absurd hsort (sortServers_ne_nil servers w hne)
        | cons s0 rest =>
          exact ⟨_, splitKeyRange_cons keyRange servers w s0 rest hsort⟩
      obtain ⟨r1, r2⟩ := pair
      refine ⟨r1, r2, hspl, ?_⟩
      unfold slicerLoadBalancer
      rw [hfml]
      show (if imbalanced most least w then _ else _) = _
      rw [if_pos him, hsel]
      show (if shouldSplitKeyRange keyRange least then _ else _) = _
      rw [if_pos hsp, hspl]
    have hmove : ¬ shouldSplitKeyRange keyRange least →
        canMoveKeyRange keyRange least ∧
        slicerLoadBalancer servers w = some
          [createMigrationPlan keyRange most.instance_id least.instance_id] := by
      intro hsp
      have hcm : canMoveKeyRange keyRange least := by
        unfold canMoveKeyRange
        unfold shouldSplitKeyRange at hsp
        push_neg at hsp
        exact hsp
      refine ⟨hcm, ?_⟩
      unfold slicerLoadBalancer
      rw [hfml]
      show (if imbalanced most least w then _ else _) = _
      rw [if_pos him, hsel]
      show (if shouldSplitKeyRange keyRange least then _ else _) = _
      rw [if_neg hsp, if_pos hcm]
    refine ⟨hsplit, hmove, ?_⟩
    by_cases hsp : shouldSplitKeyRange keyRange least
    · obtain ⟨r1, r2, hspl, hrun⟩ := hsplit hsp
      exact ⟨_, hrun, by simp⟩
    · obtain ⟨hcm, hrun⟩ := hmove hsp
      exact ⟨_, hrun, by simp⟩
  · intro servers w ps p hrun hps
    subst hps
    rcases slicer_cases servers w [p] hrun with habs |
      ⟨most, least, kr, r1, r2, hfml, him, hsel, hsp, hspl, habs⟩ |
      ⟨most, least, kr, hfml, him, hsel, hsp, hcm, heq⟩
    · exact absurd habs (by simp)
    · exact absurd habs (by simp)
    · have hp : p = createMigrationPlan kr most.instance_id least.instance_id := by
        injection heq
      exact ⟨most, least, kr, hfml, hsel, hcm, hp⟩

/-- C3 counterexample: on a two-server fleet whose second-least-loaded server
has the empty string for `instance_id`, range B is routed to the
least-loaded server (`"y"`), not to the second-least-loaded one (`""`): the
JS `||` treats the empty id as falsy. -/
theorem claim3_counterexample :
    sortServers [serverNoName, serverY] weights = [serverY, serverNoName] ∧
    serverNoName.instance_id = "" ∧
    serverY.instance_id = "y" ∧
    (splitKeyRange sampleRange [serverNoName, serverY] weights).map
      (fun p => p.2.destination_instance) = some "y" := by
  have hs : sortServers [serverNoName, serverY] weights =
      [serverY, serverNoName] := by
    norm_num [sortServers, serverLe, List.insertionSort, List.orderedInsert,
      calculateCombinedLoad, serverNoName, serverY, weights]
  refine ⟨hs, rfl, rfl, ?_⟩
  rw [splitKeyRange_cons sampleRange [serverNoName, serverY] weights serverY
    [serverNoName] hs]
  simp [secondDestination, serverY, serverNoName]

/-- C3 (amended): on SPLIT the midpoint key is the single code unit at the
floored average of the two first code units, the halves meet at it, the fleet
is sorted ascending by combined load (a permutation of the input), range A
goes to the sorted head (a globally least-loaded server), and range B goes to
the second entry of the sorted fleet unless there is none or its
`instance_id` is the empty string, in which case it falls back to the sorted
head. -/
theorem claim3_amended_split_destinations (keyRange : KeyRange)
    (servers : List ServerReport) (w : Weights) (r1 r2 : DestinedKeyRange)
    (h : splitKeyRange keyRange servers w = some (r1, r2)) :
    r1.range.end_key =
      [(charCodeAt0 keyRange.start_key + charCodeAt0 keyRange.end_key) / 2] ∧
    r2.range.start_key = r1.range.end_key ∧
    ∃ s0 rest, sortServers servers w = s0 :: rest ∧
      (s0 :: rest).Perm servers ∧
      (∀ s ∈ servers, calculateCombinedLoad s0 w ≤ calculateCombinedLoad s w) ∧
      (∀ s1 rest2, rest = s1 :: rest2 →
        calculateCombinedLoad s0 w ≤ calculateCombinedLoad s1 w ∧
        ∀ s ∈ rest2, calculateCombinedLoad s1 w ≤ calculateCombinedLoad s w) ∧
      r1.destination_instance = s0.instance_id ∧
      (rest = [] → r2.destination_instance = s0.instance_id) ∧
      (∀ s1 rest2, rest = s1 :: rest2 →
        r2.destination_instance =
          if s1.instance_id = "" then s0.instance_id else s1.instance_id) := by
  obtain ⟨s0, rest, hsort, hr1, hr2⟩ := splitKeyRange_eq_some _ _ _ _ _ h
  subst hr1
  subst hr2
  have hperm : (s0 :: rest).Perm servers := hsort ▸ sortServers_perm servers w
  have hsorted := sortServers_sorted servers w
  rw [hsort] at hsorted
  obtain ⟨h0, hrest⟩ := List.sorted_cons.1 hsorted
  refine ⟨rfl, rfl, s0, rest, hsort, hperm, ?_, ?_, rfl, ?_, ?_⟩
  · intro s hs
    rcases List.mem_cons.1 (hperm.mem_iff.2 hs) with rfl | hmem
    · exact le_refl _
    · exact h0 s hmem
  · intro s1 rest2 hr
    subst hr
    obtain ⟨h1, _⟩ := List.sorted_cons.1 hrest
    exact ⟨h0 s1 (List.mem_cons_self _ _), h1⟩
  · intro hr
    subst hr
    rfl
  · intro s1 rest2 hr
    subst hr
    rfl

/-- C3 witness: on the reference fixture, range A ends at the floored-average
midpoint key. -/
theorem claim3_witness :
    splitA.range.end_key =
      [(charCodeAt0 hotRangeA.start_key + charCodeAt0 hotRangeA.end_key) / 2] :=
  (claim3_amended_split_destinations hotRangeA [serverA, serverB] weights
    splitA splitB fixtureSplit).1

/-- C4: splitting halves all four metrics of the candidate range, range A
spans from the original start key to the computed midpoint, and range B from
that midpoint to the original end key. -/
theorem claim4_split_metrics (keyRange : KeyRange) (servers : List ServerReport)
    (w : Weights) (r1 r2 : DestinedKeyRange)
    (h : splitKeyRange keyRange servers w = some (r1, r2)) :
    r1.range.data_access_frequency = keyRange.data_access_frequency / 2 ∧
    r1.range.storage_utilization = keyRange.storage_utilization / 2 ∧
    r1.range.request_processing_load = keyRange.request_processing_load / 2 ∧
    r1.range.memory_usage = keyRange.memory_usage / 2 ∧
    r2.range.data_access_frequency = keyRange.data_access_frequency / 2 ∧
    r2.range.storage_utilization = keyRange.storage_utilization / 2 ∧
    r2.range.request_processing_load = keyRange.request_processing_load / 2 ∧
    r2.range.memory_usage = keyRange.memory_usage / 2 ∧
    r1.range.start_key = keyRange.start_key ∧
    r1.range.end_key = calculateMidKey keyRange.start_key keyRange.end_key ∧
    r2.range.start_key = calculateMidKey keyRange.start_key keyRange.end_key ∧
    r2.range.end_key = keyRange.end_key := by
  obtain ⟨s0, rest, hsort, hr1, hr2⟩ := splitKeyRange_eq_some _ _ _ _ _ h
  subst hr1
  subst hr2
  exact ⟨rfl, rfl, rfl, rfl, rfl, rfl, rfl, rfl, rfl, rfl, rfl, rfl⟩

/-- C4 witness: on the reference fixture, range A carries half the access
frequency of the original hot range. -/
theorem claim4_witness :
    splitA.range.data_access_frequency = hotRangeA.data_access_frequency / 2 :=
  (claim4_split_metrics hotRangeA [serverA, serverB] weights splitA splitB
    fixtureSplit).1

/-- C5: every successful run returns at most 2 plans; a 2-plan result is the
range-A plan followed by the range-B plan, both with the same source and
meeting at the midpoint key; and a run below the imbalance threshold returns
zero plans. -/
theorem claim5_plan_count (servers : List ServerReport) (w : Weights)
    (ps : List MigrationPlan) (h : slicerLoadBalancer servers w = some ps) :
    ps.length ≤ 2 ∧
    (ps.length = 2 → ∃ p1 p2, ps = [p1, p2] ∧
      p1.source_instance = p2.source_instance ∧ p1.end_key = p2.start_key) ∧
    (∀ most least, findMostAndLeast servers w = (some most, some least) →
      ¬ imbalanced most least w → ps = []) := by
  rcases slicer_cases servers w ps h with rfl |
    ⟨most, least, kr, r1, r2, hfml, him, hsel, hsp, hspl, rfl⟩ |
    ⟨most, least, kr, hfml, him, hsel, hsp, hcm, rfl⟩
  · exact ⟨by simp, by simp, fun _ _ _ _ => rfl⟩
  · refine ⟨by simp, ?_, ?_⟩
    · intro _
      refine ⟨_, _, rfl, rfl, ?_⟩
      obtain ⟨s0, rest, hsort, hr1, hr2⟩ := splitKeyRange_eq_some _ _ _ _ _ hspl
      rw [hr1, hr2]
      rfl
    · intro most' least' hfml' hni
      rw [hfml] at hfml'
      have hm : most = most' := Option.some.inj (congrArg Prod.fst hfml')
      have hl : least = least' := Option.some.inj (congrArg Prod.snd hfml')
      exact absurd (hm ▸ hl ▸ him) hni
  · refine ⟨by simp, by simp, ?_⟩
    intro most' least' hfml' hni
    rw [hfml] at hfml'
    have hm : most = most' := Option.some.inj (congrArg Prod.fst hfml')
    have hl : least = least' := Option.some.inj (congrArg Prod.snd hfml')
    exact absurd (hm ▸ hl ▸ him) hni

/-- C5 witness: the reference fixture's run keeps to the two-plan bound. -/
theorem claim5_witness : ([planA, planB] : List MigrationPlan).length ≤ 2 :=
  (claim5_plan_count [serverA, serverB] weights [planA, planB] fixtureRun).1

/-- C6: on the two-server reference fixture, the hot range is `a000`–`a999`
with processing load 3500, moving it whole onto server B projects
`2000 + 3500 = 5500 > 4000`, so the range is split at midpoint key `"a"`, the
fleet sorts to B (least loaded) then A, and the run returns exactly the plans
`(a000, a, A, B)` and `(a, a999, A, A)`. -/
theorem claim6_reference_fixture :
    selectKeyRangeToMove serverA.key_ranges weights = some hotRangeA ∧
    hotRangeA.request_processing_load = 3500 ∧
    serverB.total_request_processing_load + hotRangeA.request_processing_load
      = 5500 ∧
    serverB.max_cpu_capacity = 4000 ∧
    shouldSplitKeyRange hotRangeA serverB ∧
    calculateMidKey hotRangeA.start_key hotRangeA.end_key = codes "a" ∧
    sortServers [serverA, serverB] weights = [serverB, serverA] ∧
    slicerLoadBalancer [serverA, serverB] weights = some [planA, planB] ∧
    planA = ⟨codes "a000", codes "a", "server-1234", "server-5678"⟩ ∧
    planB = ⟨codes "a", codes "a999", "server-1234", "server-1234"⟩ := by
  refine ⟨fixtureSelect, rfl, ?_, rfl, ?_, ?_, fixtureSorted, fixtureRun, rfl, rfl⟩
  · norm_num [serverB, hotRangeA]
  · exact Or.inl (by norm_num [serverB, hotRangeA])
  · decide

/-- C7: server scoring and range scoring are the same weighted sum
`cpu*cpuWeight + storage*storageWeight + access*accessFrequencyWeight +
memory*memoryWeight` over the structurally identical four metrics; the
fixed-weight variant is that same formula at weights (1, 0.5, 0.2, 0.3); and
a zero weight makes the score independent of its dimension. -/
theorem claim7_scorer_formula :
    (∀ (server : ServerReport) (w : Weights),
      calculateCombinedLoad server w =
        server.total_request_processing_load * w.cpuWeight +
        server.total_storage_utilization * w.storageWeight +
        server.total_data_access_frequency * w.accessFrequencyWeight +
        server.total_memory_usage * w.memoryWeight) ∧
    (∀ (keyRange : KeyRange) (w : Weights),
      calculateKeyRangeLoad keyRange w =
        keyRange.request_processing_load * w.cpuWeight +
        keyRange.storage_utilization * w.storageWeight +
        keyRange.data_access_frequency * w.accessFrequencyWeight +
        keyRange.memory_usage * w.memoryWeight) ∧
    (∀ (w : Weights) (id : String) (storage cpu access memory cc mc : ℚ)
       (krs : List KeyRange) (sk ek : List Nat),
      calculateCombinedLoad ⟨id, storage, cpu, access, memory, cc, mc, krs⟩ w =
        calculateKeyRangeLoad ⟨sk, ek, access, storage, cpu, memory⟩ w) ∧
    (∀ server : ServerReport,
      calculateCombinedLoadFixed server =
        calculateCombinedLoad server ⟨1, 0.3, 0.5, 0.2, 0⟩) ∧
    (∀ keyRange : KeyRange,
      calculateKeyRangeLoadFixed keyRange =
        calculateKeyRangeLoad keyRange ⟨1, 0.3, 0.5, 0.2, 0⟩) ∧
    (∀ (server : ServerReport) (w : Weights) (v : ℚ),
      calculateCombinedLoad { server with total_request_processing_load := v }
          { w with cpuWeight := 0 } =
        calculateCombinedLoad server { w with cpuWeight := 0 }) ∧
    (∀ (server : ServerReport) (w : Weights) (v : ℚ),
      calculateCombinedLoad { server with total_storage_utilization := v }
          { w with storageWeight := 0 } =
        calculateCombinedLoad server { w with storageWeight := 0 }) ∧
    (∀ (server : ServerReport) (w : Weights) (v : ℚ),
      calculateCombinedLoad { server with total_data_access_frequency := v }
          { w with accessFrequencyWeight := 0 } =
        calculateCombinedLoad server { w with accessFrequencyWeight := 0 }) ∧
    (∀ (server : ServerReport) (w : Weights) (v : ℚ),
      calculateCombinedLoad { server with total_memory_usage := v }
          { w with memoryWeight := 0 } =
        calculateCombinedLoad server { w with memoryWeight := 0 }) := by
  refine ⟨fun server w => rfl, fun keyRange w => rfl,
    fun w id st c a m cc mc krs sk ek => rfl, ?_, ?_, ?_, ?_, ?_, ?_⟩ <;>
    intros <;>
    simp only [calculateCombinedLoad, calculateCombinedLoadFixed,
      calculateKeyRangeLoad, calculateKeyRangeLoadFixed] <;>
    ring

/-- C8: an empty fleet yields no plans (and no error), and a one-server fleet
(with the data model's non-negative metrics and weights) yields no plans
whatever its load. -/
theorem claim8_small_fleet (w : Weights) (server : ServerReport)
    (hw1 : 0 ≤ w.cpuWeight) (hw2 : 0 ≤ w.storageWeight)
    (hw3 : 0 ≤ w.accessFrequencyWeight) (hw4 : 0 ≤ w.memoryWeight)
    (hs1 : 0 ≤ server.total_request_processing_load)
    (hs2 : 0 ≤ server.total_storage_utilization)
    (hs3 : 0 ≤ server.total_data_access_frequency)
    (hs4 : 0 ≤ server.total_memory_usage) :
    slicerLoadBalancer [] w = some [] ∧
    slicerLoadBalancer [server] w = some [] := by
  constructor
  · rfl
  · have hfml : findMostAndLeast [server] w = (some server, some server) := rfl
    apply slicer_of_not_imbalanced _ _ _ _ hfml
    unfold imbalanced
    rw [sub_self]
    refine not_lt.2 (mul_nonneg (by norm_num) ?_)
    exact add_nonneg (add_nonneg (add_nonneg (mul_nonneg hs1 hw1)
      (mul_nonneg hs2 hw2)) (mul_nonneg hs3 hw3)) (mul_nonneg hs4 hw4)

/-- C8 witness: the empty fleet and the one-server fleet `[serverA]` under
the default weights. -/
theorem claim8_witness :
    slicerLoadBalancer [] weights = some [] ∧
    slicerLoadBalancer [serverA] weights = some [] :=
  claim8_small_fleet weights serverA (by norm_num [weights])
    (by norm_num [weights]) (by norm_num [weights]) (by norm_num [weights])
    (by norm_num [serverA]) (by norm_num [serverA]) (by norm_num [serverA])
    (by norm_num [serverA])

/-- C9: after a run the caller's server list is a permutation of what it was
(the split path sorts it in place, every other path leaves it alone), so
every `ServerReport` — its id, totals, capacities and key ranges — is still
present unchanged and only the order may differ. -/
theorem claim9_snapshot_preserved (servers : List ServerReport) (w : Weights) :
    (slicerFinalServers servers w).Perm servers ∧
    ∀ s, s ∈ slicerFinalServers servers w ↔ s ∈ servers := by
  have hperm : (slicerFinalServers servers w).Perm servers := by
    unfold slicerFinalServers
    repeat' split
    all_goals first
      | exact sortServers_perm servers w
      | exact List.Perm.refl _
  exact ⟨hperm, fun s => hperm.mem_iff⟩

/-- C10: on the reference fixture (well-formed: every input range has
`start_key <= end_key`), the split path emits a first plan whose
single-character end key `"a"` is lexicographically smaller than its start
key `"a000"`, so the emitted plans violate the ordering the inputs satisfy. -/
theorem claim10_inverted_split_plan :
    (serverA.key_ranges ++ serverB.key_ranges).all
      (fun r => !(strLt r.end_key r.start_key)) = true ∧
    (slicerLoadBalancer [serverA, serverB] weights).map
      (fun ps => ps.map (fun p => strLt p.end_key p.start_key)) =
      some [true, false] := by
  refine ⟨by decide, ?_⟩
  rw [fixtureRun]
  decide

end Slicer
